import Mathlib

/-
Verification of the core byte-level logic of ngrom (src/ngrom.cpp), a
Genesis/Mega Drive ROM conversion utility (SMD -> BIN).

Byte buffers are embedded as functions `Nat → Nat` (index to byte value);
the fixed buffer sizes (512-byte header, 16384-byte block) appear as
explicit index bounds in the statements.  File-system effects (fopen,
fread, fwrite) are embedded by abstracting each file into the observable
results of those calls (open success, byte counts obtained, header
contents), and each orchestration function becomes a pure function of
those observables that mirrors the source's control flow.
-/

/-- RomFormat enum of src/ngrom.cpp (namespace NGROM_NS). -/
inductive RomFormat where
  | UNK_FMT
  | SMD
  | BIN
deriving DecidableEq

/-- FileCheckAction enum of src/ngrom.cpp (namespace NGROM_NS). -/
inductive FileCheckAction where
  | UNSET
  | STOP
  | WARN
  | SKIP
deriving DecidableEq

/-- The check `0 == memcmp(headerBytes + 0x100, "SEGA", 4)` used by
getLikelyFormat (src/ngrom.cpp line 210) and checkFormats (lines 265, 312). -/
def isSEGA (headerBytes : Nat → Nat) : Bool :=
  (headerBytes 0x100 == 'S'.toNat) && (headerBytes 0x101 == 'E'.toNat) &&
  (headerBytes 0x102 == 'G'.toNat) && (headerBytes 0x103 == 'A'.toNat)

/-- getLikelyFormat (src/ngrom.cpp lines 205-222): BIN when "SEGA" is at
offset 0x100, else SMD when byte 8 is 0xAA and byte 9 is 0xBB, else UNK_FMT. -/
def getLikelyFormat (headerBytes : Nat → Nat) : RomFormat :=
  if isSEGA headerBytes then RomFormat.BIN
  else if (headerBytes 8 == 0xAA) && (headerBytes 9 == 0xBB) then RomFormat.SMD
  else RomFormat.UNK_FMT

/-- The loop of decodeSMDBlock (src/ngrom.cpp lines 340-350) after `n`
iterations: iteration `i` writes `dest[2i+1] = src[i]` and
`dest[2i] = src[i+8192]`. -/
def decodeSMDBlockLoop (destBINBlock srcSMDBlock : Nat → Nat) : Nat → Nat → Nat
  | 0 => destBINBlock
  | n + 1 => fun j =>
      if j = 2 * n + 1 then srcSMDBlock n
      else if j = 2 * n then srcSMDBlock (n + 8192)
      else decodeSMDBlockLoop destBINBlock srcSMDBlock n j

/-- decodeSMDBlock (src/ngrom.cpp lines 340-350): runs the interleaving loop
for all 8192 iterations over the destination buffer. -/
def decodeSMDBlock (destBINBlock srcSMDBlock : Nat → Nat) : Nat → Nat :=
  decodeSMDBlockLoop destBINBlock srcSMDBlock 8192

lemma decodeSMDBlockLoop_odd (dest src : Nat → Nat) :
    ∀ n i, i < n → decodeSMDBlockLoop dest src n (2 * i + 1) = src i := by
  intro n
  induction n with
  | zero => intro i h; exact absurd h (Nat.not_lt_zero i)
  | succ n ih =>
      intro i h
      by_cases hi : i = n
      · subst hi
        simp [decodeSMDBlockLoop]
      · have h2 : i < n := by omega
        have hne1 : 2 * i + 1 ≠ 2 * n + 1 := by omega
        have hne2 : 2 * i + 1 ≠ 2 * n := by omega
        simp [decodeSMDBlockLoop, hne1, hne2, ih i h2]

lemma decodeSMDBlockLoop_even (dest src : Nat → Nat) :
    ∀ n i, i < n → decodeSMDBlockLoop dest src n (2 * i) = src (i + 8192) := by
  intro n
  induction n with
  | zero => intro i h; exact absurd h (Nat.not_lt_zero i)
  | succ n ih =>
      intro i h
      by_cases hi : i = n
      · subst hi
        have hne1 : 2 * i ≠ 2 * i + 1 := by omega
        simp [decodeSMDBlockLoop, hne1]
      · have h2 : i < n := by omega
        have hne1 : 2 * i ≠ 2 * n + 1 := by omega
        have hne2 : 2 * i ≠ 2 * n := by omega
        simp [decodeSMDBlockLoop, hne1, hne2, ih i h2]

/-- Claim C1: for every 16384-byte input block, decodeSMDBlock produces an
output where, for every i in [0, 8192), the byte at position 2i+1 equals the
input byte at position i and the byte at position 2i equals the input byte at
position i+8192. -/
theorem decodeSMDBlock_interleave (dest src : Nat → Nat) (i : Nat) (h : i < 8192) :
    decodeSMDBlock dest src (2 * i + 1) = src i ∧
    decodeSMDBlock dest src (2 * i) = src (i + 8192) :=
  ⟨decodeSMDBlockLoop_odd dest src 8192 i h, decodeSMDBlockLoop_even dest src 8192 i h⟩

/-- Witness for C1 at the concrete index i = 3 with src = identity. -/
theorem decodeSMDBlock_interleave_witness :
    3 < 8192 ∧
    (decodeSMDBlock (fun _ => 0) (fun n => n) (2 * 3 + 1) = 3 ∧
     decodeSMDBlock (fun _ => 0) (fun n => n) (2 * 3) = 3 + 8192) :=
  ⟨by decide, decodeSMDBlock_interleave (fun _ => 0) (fun n => n) 3 (by decide)⟩

/-- Modelled from the spec: the BIN→SMD inverse transform (spec sections 4.2
and 8, "Round-trip").  The source implements only the SMD→BIN direction, so
the encoder is taken from the spec's description of the block layout: the
first 8192 bytes of an SMD block are the odd-position output bytes in order,
the second 8192 bytes are the even-position output bytes in order. -/
def encodeSMDBlock (binBlock : Nat → Nat) : Nat → Nat :=
  fun i => if i < 8192 then binBlock (2 * i + 1) else binBlock (2 * (i - 8192))

/-- Claim C2: the de-interleave transform is a bijection on 16384-byte
blocks — applying the BIN→SMD inverse transform and then decodeSMDBlock
reproduces the original block exactly at every position j < 16384. -/
theorem decodeSMDBlock_encodeSMDBlock_roundTrip (binBlock dest : Nat → Nat)
    (j : Nat) (h : j < 16384) :
    decodeSMDBlock dest (encodeSMDBlock binBlock) j = binBlock j := by
  rcases Nat.mod_two_eq_zero_or_one j with hp | hp
  · have hj : j = 2 * (j / 2) := by omega
    have hi : j / 2 < 8192 := by omega
    calc decodeSMDBlock dest (encodeSMDBlock binBlock) j
        = decodeSMDBlock dest (encodeSMDBlock binBlock) (2 * (j / 2)) := by rw [← hj]
      _ = encodeSMDBlock binBlock (j / 2 + 8192) :=
          decodeSMDBlockLoop_even dest (encodeSMDBlock binBlock) 8192 (j / 2) hi
      _ = binBlock (2 * (j / 2 + 8192 - 8192)) := by
          rw [encodeSMDBlock]
          rw [if_neg (by omega)]
      _ = binBlock j := by
          have : j / 2 + 8192 - 8192 = j / 2 := by omega
          rw [this, ← hj]
  · have hj : j = 2 * (j / 2) + 1 := by omega
    have hi : j / 2 < 8192 := by omega
    calc decodeSMDBlock dest (encodeSMDBlock binBlock) j
        = decodeSMDBlock dest (encodeSMDBlock binBlock) (2 * (j / 2) + 1) := by rw [← hj]
      _ = encodeSMDBlock binBlock (j / 2) :=
          decodeSMDBlockLoop_odd dest (encodeSMDBlock binBlock) 8192 (j / 2) hi
      _ = binBlock (2 * (j / 2) + 1) := by
          rw [encodeSMDBlock]
          rw [if_pos hi]
      _ = binBlock j := by rw [← hj]

/-- Witness for C2 at the concrete position j = 5 with the identity block. -/
theorem decodeSMDBlock_encodeSMDBlock_roundTrip_witness :
    5 < 16384 ∧
    decodeSMDBlock (fun _ => 0) (encodeSMDBlock (fun n => n)) 5 = 5 :=
  ⟨by decide, decodeSMDBlock_encodeSMDBlock_roundTrip (fun n => n) (fun _ => 0) 5 (by decide)⟩

/-- Claim C3: getLikelyFormat returns BIN whenever "SEGA" sits at offset
0x100 (regardless of bytes 8 and 9); otherwise SMD when byte 8 is 0xAA and
byte 9 is 0xBB; otherwise UNK_FMT. -/
theorem getLikelyFormat_classification (hb : Nat → Nat) :
    (isSEGA hb = true → getLikelyFormat hb = RomFormat.BIN) ∧
    (isSEGA hb = false → hb 8 = 0xAA → hb 9 = 0xBB → getLikelyFormat hb = RomFormat.SMD) ∧
    (isSEGA hb = false → ¬(hb 8 = 0xAA ∧ hb 9 = 0xBB) → getLikelyFormat hb = RomFormat.UNK_FMT) := by
  refine ⟨?_, ?_, ?_⟩
  · intro h
    simp [getLikelyFormat, h]
  · intro h h8 h9
    simp [getLikelyFormat, h, h8, h9]
  · intro h hn
    have hcond : ((hb 8 == 0xAA) && (hb 9 == 0xBB)) = false := by
      by_cases h8 : hb 8 = 0xAA
      · by_cases h9 : hb 9 = 0xBB
        · exact absurd ⟨h8, h9⟩ hn
        · simp [h9]
      · simp [h8]
    simp [getLikelyFormat, h, hcond]

/-- Example header with "SEGA" at offset 0x100 (and the SMD marker bytes
set, to exercise the precedence of the BIN check). -/
def segaHdr : Nat → Nat := fun i =>
  if i = 0x100 then 'S'.toNat
  else if i = 0x101 then 'E'.toNat
  else if i = 0x102 then 'G'.toNat
  else if i = 0x103 then 'A'.toNat
  else if i = 8 then 0xAA
  else if i = 9 then 0xBB
  else 0

/-- Example header with the SMD marker bytes and no "SEGA" text. -/
def smdHdr : Nat → Nat := fun i =>
  if i = 8 then 0xAA else if i = 9 then 0xBB else 0

/-- Example header of all zero bytes. -/
def zeroHdr : Nat → Nat := fun _ => 0

/-- Witness for C3 on three concrete headers, one per branch. -/
theorem getLikelyFormat_classification_witness :
    getLikelyFormat segaHdr = RomFormat.BIN ∧
    getLikelyFormat smdHdr = RomFormat.SMD ∧
    getLikelyFormat zeroHdr = RomFormat.UNK_FMT :=
  ⟨(getLikelyFormat_classification segaHdr).1 (by decide),
   (getLikelyFormat_classification smdHdr).2.1 (by decide) (by decide) (by decide),
   (getLikelyFormat_classification zeroHdr).2.2 (by decide) (by decide)⟩

/-- Software type rendering of showInfoList (src/ngrom.cpp lines 449-462):
"GM" renders "Game", "Al" renders "Educational", anything else renders the
two bytes as literal characters. -/
def renderSoftwareType (hdr : Nat → Nat) : List Char :=
  if hdr 0x180 = 'G'.toNat ∧ hdr 0x181 = 'M'.toNat then "Game".data
  else if hdr 0x180 = 'A'.toNat ∧ hdr 0x181 = 'l'.toNat then "Educational".data
  else [Char.ofNat (hdr 0x180), Char.ofNat (hdr 0x181)]

/-- Claim C9: the Software type field (bytes 0x180..0x181) renders as "Game"
for "GM", "Educational" for "Al", and the two literal characters otherwise. -/
theorem renderSoftwareType_cases (hdr : Nat → Nat) :
    (hdr 0x180 = 'G'.toNat → hdr 0x181 = 'M'.toNat →
      renderSoftwareType hdr = "Game".data) ∧
    (hdr 0x180 = 'A'.toNat → hdr 0x181 = 'l'.toNat →
      renderSoftwareType hdr = "Educational".data) ∧
    (¬(hdr 0x180 = 'G'.toNat ∧ hdr 0x181 = 'M'.toNat) →
     ¬(hdr 0x180 = 'A'.toNat ∧ hdr 0x181 = 'l'.toNat) →
      renderSoftwareType hdr = [Char.ofNat (hdr 0x180), Char.ofNat (hdr 0x181)]) := by
  refine ⟨?_, ?_, ?_⟩
  · intro hG hM
    rw [renderSoftwareType, if_pos ⟨hG, hM⟩]
  · intro hA hl
    have h1 : ¬(hdr 0x180 = 'G'.toNat ∧ hdr 0x181 = 'M'.toNat) := by
      intro hc
      rw [hA] at hc
      exact absurd hc.1 (by decide)
    rw [renderSoftwareType, if_neg h1, if_pos ⟨hA, hl⟩]
  · intro h1 h2
    rw [renderSoftwareType, if_neg h1, if_neg h2]

/-- Example header with "GM" at offset 0x180. -/
def gmHdr : Nat → Nat := fun i =>
  if i = 0x180 then 'G'.toNat else if i = 0x181 then 'M'.toNat else 0

/-- Example header with "Al" at offset 0x180. -/
def alHdr : Nat → Nat := fun i =>
  if i = 0x180 then 'A'.toNat else if i = 0x181 then 'l'.toNat else 0

/-- Witness for C9 on three concrete headers, one per branch. -/
theorem renderSoftwareType_cases_witness :
    renderSoftwareType gmHdr = "Game".data ∧
    renderSoftwareType alHdr = "Educational".data ∧
    renderSoftwareType zeroHdr = [Char.ofNat (zeroHdr 0x180), Char.ofNat (zeroHdr 0x181)] :=
  ⟨(renderSoftwareType_cases gmHdr).1 (by decide) (by decide),
   (renderSoftwareType_cases alHdr).2.1 (by decide) (by decide),
   (renderSoftwareType_cases zeroHdr).2.2 (by decide) (by decide)⟩

/-- Outcome of one file in showInfoList: either the file's info is shown or
the file is skipped with a logged error. -/
inductive InfoOutcome where
  | skipped
  | shown
deriving DecidableEq

/-- Per-file decision logic of showInfoList (src/ngrom.cpp lines 368-422),
as a function of the observable I/O results: whether fopen succeeded, how
many bytes the 512-byte header read obtained, the header bytes, and how many
bytes the 16384-byte block read obtained.  In the SMD branch the source
requests NUM_SMD_BLOCK_BYTES (16384) bytes but compares the obtained count
against NUM_HEADER_BYTES (512) (line 406); the embedding reproduces that
comparison as written. -/
def showInfoStep (openOk : Bool) (hdrBytesRead : Nat) (hdr : Nat → Nat)
    (blockBytesRead : Nat) : InfoOutcome :=
  if openOk = false then InfoOutcome.skipped
  else if hdrBytesRead < 512 then InfoOutcome.skipped
  else
    match getLikelyFormat hdr with
    | RomFormat.UNK_FMT => InfoOutcome.skipped
    | RomFormat.SMD =>
        if blockBytesRead < 512 then InfoOutcome.skipped else InfoOutcome.shown
    | RomFormat.BIN => InfoOutcome.shown

/-- Claim C4 (failing input): an SMD-format file whose block read obtains
only 1000 of the 16384 requested bytes is nonetheless shown, not skipped,
because the source compares the block read count against 512. -/
theorem showInfoStep_shortBlockRead_shown :
    getLikelyFormat smdHdr = RomFormat.SMD ∧
    showInfoStep true 512 smdHdr 1000 = InfoOutcome.shown := by
  constructor
  · decide
  · decide

/-- Observable I/O results for one file in checkFormats: whether fopen
succeeded, how many of the 512 requested header bytes fread obtained, and
the header bytes read (into a zero-cleared buffer). -/
structure CheckFile where
  openOk : Bool
  bytesRead : Nat
  bytes : Nat → Nat

/-- Per-file BIN check of checkFormats (src/ngrom.cpp lines 240-277):
open failure or a short header read fails; otherwise pass iff "SEGA" is at
offset 0x100. -/
def checkOneBIN (f : CheckFile) : Bool :=
  if f.openOk = false then false
  else if f.bytesRead < 512 then false
  else isSEGA f.bytes

/-- Per-file SMD check of checkFormats (src/ngrom.cpp lines 278-325):
open failure or a short header read fails; byte 8 not 0xAA or byte 9 not
0xBB fails; "SEGA" at offset 0x100 fails (appears to be BIN); else pass. -/
def checkOneSMD (f : CheckFile) : Bool :=
  if f.openOk = false then false
  else if f.bytesRead < 512 then false
  else if ¬(f.bytes 8 = 0xAA) ∨ ¬(f.bytes 9 = 0xBB) then false
  else if isSEGA f.bytes then false
  else true

/-- checkFormats (src/ngrom.cpp lines 231-334) over the list of files, with
the running `retval` accumulator: BIN and SMD failures clear `retval` and
the loop continues with the next file; any other format returns false from
inside the loop immediately. -/
def checkFormats (fmt : RomFormat) : List CheckFile → Bool → Bool
  | [], retval => retval
  | f :: rest, retval =>
      match fmt with
      | RomFormat.BIN => checkFormats fmt rest (retval && checkOneBIN f)
      | RomFormat.SMD => checkFormats fmt rest (retval && checkOneSMD f)
      | RomFormat.UNK_FMT => false

lemma checkFormats_BIN_acc (files : List CheckFile) :
    ∀ r : Bool, checkFormats RomFormat.BIN files r = (r && files.all checkOneBIN) := by
  induction files with
  | nil => intro r; simp [checkFormats]
  | cons f rest ih =>
      intro r
      simp [checkFormats, ih, List.all_cons, Bool.and_assoc]

lemma checkFormats_SMD_acc (files : List CheckFile) :
    ∀ r : Bool, checkFormats RomFormat.SMD files r = (r && files.all checkOneSMD) := by
  induction files with
  | nil => intro r; simp [checkFormats]
  | cons f rest ih =>
      intro r
      simp [checkFormats, ih, List.all_cons, Bool.and_assoc]

/-- Claim C7: checkFormats returns true iff every file opens, yields at
least 512 header bytes, and matches the expected format; an SMD match
requires byte 8 = 0xAA, byte 9 = 0xBB and no "SEGA" at offset 0x100; the
result is the conjunction over all files in the list, for the BIN and SMD
cases alike (no file's outcome cuts the remaining files out of the result). -/
theorem checkFormats_allFiles :
    (∀ files : List CheckFile,
      checkFormats RomFormat.BIN files true = files.all checkOneBIN) ∧
    (∀ files : List CheckFile,
      checkFormats RomFormat.SMD files true = files.all checkOneSMD) ∧
    (∀ f : CheckFile,
      checkOneBIN f = (f.openOk && decide (512 ≤ f.bytesRead) && isSEGA f.bytes)) ∧
    (∀ f : CheckFile,
      checkOneSMD f = (f.openOk && decide (512 ≤ f.bytesRead) &&
        (f.bytes 8 == 0xAA) && (f.bytes 9 == 0xBB) && !(isSEGA f.bytes))) := by
  refine ⟨?_, ?_, ?_, ?_⟩
  · intro files
    simp [checkFormats_BIN_acc files true]
  · intro files
    simp [checkFormats_SMD_acc files true]
  · intro f
    rcases f with ⟨o, n, b⟩
    cases o with
    | false => simp [checkOneBIN]
    | true =>
        by_cases hn : n < 512
        · simp [checkOneBIN, hn, Nat.not_le.mpr hn]
        · simp [checkOneBIN, hn, Nat.not_lt.mp hn]
  · intro f
    rcases f with ⟨o, n, b⟩
    cases o with
    | false => simp [checkOneSMD]
    | true =>
        by_cases hn : n < 512
        · simp [checkOneSMD, hn, Nat.not_le.mpr hn]
        · by_cases h8 : b 8 = 0xAA
          · by_cases h9 : b 9 = 0xBB
            · by_cases hs : isSEGA b = true
              · simp [checkOneSMD, hn, Nat.not_lt.mp hn, h8, h9, hs]
              · simp [checkOneSMD, hn, Nat.not_lt.mp hn, h8, h9,
                  Bool.of_not_eq_true hs]
            · simp [checkOneSMD, hn, Nat.not_lt.mp hn, h8, h9]
          · simp [checkOneSMD, hn, Nat.not_lt.mp hn, h8]

/-- Claim C10: called with a format that is neither BIN nor SMD, checkFormats
returns false as soon as it reaches a file, whatever that file holds, whatever
files remain, and whatever the accumulator was. -/
theorem checkFormats_unknownFormat_abort (f : CheckFile) (rest : List CheckFile)
    (r : Bool) : checkFormats RomFormat.UNK_FMT (f :: rest) r = false :=
  rfl

/-- Observable attributes of one input file for convertFiles: size in bytes,
whether the computed output path already exists, whether the two fopen calls
succeed, and how many bytes each per-block fread/fwrite call obtains. -/
structure InFile where
  size : Nat
  outExists : Bool
  openInOk : Bool
  openOutOk : Bool
  readBytes : Nat → Nat
  writeBytes : Nat → Nat

/-- Result of processing one input file within convertFiles: abort the whole
batch, skip just this file, or convert it and continue. -/
inductive FileResult where
  | fatal
  | skipFile
  | converted
deriving DecidableEq

/-- The block loop of convertFiles (src/ngrom.cpp lines 629-656): block `i`
succeeds when its fread obtains all 16384 bytes and then its fwrite writes
all 16384 bytes; the source breaks out at the first failure, so the boolean
outcome is the conjunction over the blocks. -/
def convertBlocks (rd wr : Nat → Nat) : Nat → Bool
  | 0 => true
  | n + 1 =>
      if rd n < 16384 then false
      else if wr n < 16384 then false
      else convertBlocks rd wr n

/-- The body of convertFiles for one input file (src/ngrom.cpp lines
539-668), in source order: output-collision policy first (warning, then
STOP returns false, SKIP continues to the next file, anything else falls
through to overwrite), then the minimum-size check (512 + 16384), then the
16384-alignment check on size - 512, then the two fopen calls, then the
per-block read/decode/write loop. -/
def processFile (act : FileCheckAction) (f : InFile) : FileResult :=
  if f.outExists = true ∧ act = FileCheckAction.STOP then FileResult.fatal
  else if f.outExists = true ∧ act = FileCheckAction.SKIP then FileResult.skipFile
  else if f.size < 512 + 16384 then FileResult.fatal
  else if (f.size - 512) % 16384 ≠ 0 then FileResult.fatal
  else if f.openInOk = false then FileResult.fatal
  else if f.openOutOk = false then FileResult.fatal
  else if convertBlocks f.readBytes f.writeBytes ((f.size - 512) / 16384) then
    FileResult.converted
  else FileResult.fatal

/-- convertFiles (src/ngrom.cpp lines 531-672) over the list of input files:
a fatal file returns false for the whole batch at once; a skipped or
converted file lets the loop continue; an exhausted list returns true. -/
def convertFiles (act : FileCheckAction) : List InFile → Bool
  | [] => true
  | f :: rest =>
      match processFile act f with
      | FileResult.fatal => false
      | FileResult.skipFile => convertFiles act rest
      | FileResult.converted => convertFiles act rest

/-- Claim C5: a file whose size is below 16896 (512-byte header plus one
16384-byte block), or whose size minus 512 is not a multiple of 16384, is
batch-fatal: convertFiles returns false with the remaining files
unprocessed.  The file's output path is assumed not to collide, so the
size validation is reached. -/
theorem convertFiles_sizeCheck_fatal (act : FileCheckAction) (f : InFile)
    (rest : List InFile) (hex : f.outExists = false)
    (hsz : f.size < 16896 ∨ (f.size - 512) % 16384 ≠ 0) :
    convertFiles act (f :: rest) = false := by
  have hp : processFile act f = FileResult.fatal := by
    unfold processFile
    have h1 : ¬(f.outExists = true ∧ act = FileCheckAction.STOP) := by
      simp [hex]
    have h2 : ¬(f.outExists = true ∧ act = FileCheckAction.SKIP) := by
      simp [hex]
    rw [if_neg h1, if_neg h2]
    by_cases h3 : f.size < 512 + 16384
    · rw [if_pos h3]
    · rw [if_neg h3]
      have h4 : (f.size - 512) % 16384 ≠ 0 := by
        rcases hsz with h | h
        · omega
        · exact h
      rw [if_pos h4]
  simp [convertFiles, hp]

/-- Example input file of 500 bytes (too small), no output collision. -/
def smallFile : InFile :=
  ⟨500, false, true, true, fun _ => 16384, fun _ => 16384⟩

/-- Example input file of 16895 bytes (one byte short of header plus one
block), no output collision. -/
def misalignedFile : InFile :=
  ⟨16895, false, true, true, fun _ => 16384, fun _ => 16384⟩

/-- Witness for C5 on the two concrete sizes named by the claim, 16895 and
500 bytes. -/
theorem convertFiles_sizeCheck_fatal_witness :
    convertFiles FileCheckAction.STOP [misalignedFile] = false ∧
    convertFiles FileCheckAction.SKIP [smallFile] = false :=
  ⟨convertFiles_sizeCheck_fatal FileCheckAction.STOP misalignedFile [] rfl
     (Or.inl (by decide)),
   convertFiles_sizeCheck_fatal FileCheckAction.SKIP smallFile [] rfl
     (Or.inl (by decide))⟩

/-- Claim C6: when the computed output path already exists, policy STOP
aborts the whole batch at once (false, remaining files unprocessed for every
`rest`), policy SKIP skips only that file and continues with the rest, and
policy WARN proceeds exactly as if there were no collision (the file is
overwritten). -/
theorem convertFiles_collisionPolicy (f : InFile) (rest : List InFile)
    (hex : f.outExists = true) :
    convertFiles FileCheckAction.STOP (f :: rest) = false ∧
    convertFiles FileCheckAction.SKIP (f :: rest) = convertFiles FileCheckAction.SKIP rest ∧
    convertFiles FileCheckAction.WARN (f :: rest) =
      convertFiles FileCheckAction.WARN ({ f with outExists := false } :: rest) := by
  refine ⟨?_, ?_, ?_⟩
  · have hp : processFile FileCheckAction.STOP f = FileResult.fatal := by
      unfold processFile
      rw [if_pos ⟨hex, rfl⟩]
    simp [convertFiles, hp]
  · have hp : processFile FileCheckAction.SKIP f = FileResult.skipFile := by
      unfold processFile
      rw [if_neg (by simp), if_pos ⟨hex, rfl⟩]
    simp [convertFiles, hp]
  · have hp : processFile FileCheckAction.WARN f =
        processFile FileCheckAction.WARN { f with outExists := false } := by
      unfold processFile
      simp
    simp [convertFiles, hp]

/-- Example input file of valid size 16896 whose output path collides. -/
def collidingFile : InFile :=
  ⟨16896, true, true, true, fun _ => 16384, fun _ => 16384⟩

/-- Witness for C6 on a concrete colliding file with an empty remainder. -/
theorem convertFiles_collisionPolicy_witness :
    convertFiles FileCheckAction.STOP [collidingFile] = false ∧
    convertFiles FileCheckAction.SKIP [collidingFile] = convertFiles FileCheckAction.SKIP [] ∧
    convertFiles FileCheckAction.WARN [collidingFile] =
      convertFiles FileCheckAction.WARN [{ collidingFile with outExists := false }] :=
  convertFiles_collisionPolicy collidingFile [] rfl

/-- QFileInfo::fileName as used at src/ngrom.cpp line 544: the part of the
path after the last '/', or the whole path when it has no '/'. -/
def qtFileName (path : List Char) : List Char :=
  (path.reverse.takeWhile (fun c => c != '/')).reverse

/-- QFileInfo::suffix as used at src/ngrom.cpp line 546: the characters of
the file name after its last '.', or empty when the name has no '.'. -/
def qtSuffix (name : List Char) : List Char :=
  if name.contains '.' then (name.reverse.takeWhile (fun c => c != '.')).reverse
  else []

/-- Output filename derivation of convertFiles (src/ngrom.cpp lines
542-556): when the lowercased suffix is "smd" the last three characters of
the file name are replaced by "bin" (`outFilename.replace(fnameLen-3, 3,
"bin")`); otherwise ".bin" is appended to the whole file name. -/
def deriveOutFilename (path : List Char) : List Char :=
  if (qtSuffix (qtFileName path)).map Char.toLower = ['s', 'm', 'd'] then
    (qtFileName path).take ((qtFileName path).length - 3) ++ ['b', 'i', 'n']
  else
    qtFileName path ++ ['.', 'b', 'i', 'n']

/-- Full output path of convertFiles (src/ngrom.cpp lines 558-560):
outdir + "/" + the derived output filename. -/
def outFileFullPath (outdir path : List Char) : List Char :=
  outdir ++ '/' :: deriveOutFilename path

/-- Modelled from the spec's words (section 4.5 step 1), for comparison with
the source derivation: if the input extension (case-insensitive) is "smd",
replace it — i.e. drop exactly the extension — with "bin"; otherwise append
".bin" to the whole filename. -/
def deriveOutFilenameSpec (path : List Char) : List Char :=
  if (qtSuffix (qtFileName path)).map Char.toLower = ['s', 'm', 'd'] then
    (qtFileName path).take ((qtFileName path).length - (qtSuffix (qtFileName path)).length)
      ++ ['b', 'i', 'n']
  else
    qtFileName path ++ ['.', 'b', 'i', 'n']

/-- Claim C8: for every input path the Converter's output path is the output
directory joined with the spec's naming rule (replace a case-insensitive
"smd" extension with "bin", else append ".bin" to the whole filename); in
particular game.smd maps to game.bin and game.dat maps to game.dat.bin. -/
theorem convertFiles_outputNaming :
    (∀ outdir path : List Char,
      outFileFullPath outdir path = outdir ++ '/' :: deriveOutFilenameSpec path) ∧
    deriveOutFilename ['g', 'a', 'm', 'e', '.', 's', 'm', 'd'] =
      ['g', 'a', 'm', 'e', '.', 'b', 'i', 'n'] ∧
    deriveOutFilename ['g', 'a', 'm', 'e', '.', 'd', 'a', 't'] =
      ['g', 'a', 'm', 'e', '.', 'd', 'a', 't', '.', 'b', 'i', 'n'] := by
  refine ⟨?_, by decide, by decide⟩
  intro outdir path
  rw [outFileFullPath]
  congr 1
  rw [deriveOutFilename, deriveOutFilenameSpec]
  by_cases h : (qtSuffix (qtFileName path)).map Char.toLower = ['s', 'm', 'd']
  · have hlen : (qtSuffix (qtFileName path)).length = 3 := by
      have hc := congrArg List.length h
      simpa using hc
    rw [if_pos h, if_pos h, hlen]
  · rw [if_neg h, if_neg h]
